import Mathlib

/-!
Verification development for the robot-datastore repository (frame-bucket).

The Rust sources are shallowly embedded: byte buffers are lists of natural
numbers (one element per byte / ASCII character), machine integers are Nat or
Int with explicit reductions modulo powers of two where the code can overflow,
and fallible operations return Option or Except.  External effects (S3 calls,
the encoder subprocess, the SQLite connection, wall clocks) are passed in as
explicit oracle parameters, and the observable actions of a code path are
returned as an event trace.
-/

namespace FrameBucket

/-! ### Big-endian byte codecs (frame-bucket/common/src/frame.rs helpers)

Models the to_be_bytes / from_be_bytes pairs used by TimestampedFrame.
-/

/-- Big-endian byte encoding of a natural number into exactly w bytes
(the low w bytes, matching to_be_bytes on a w-byte machine integer). -/
def beBytes : Nat → Nat → List Nat
  | 0, _ => []
  | w + 1, n => beBytes w (n / 256) ++ [n % 256]

/-- Big-endian byte decoding, matching from_be_bytes. -/
def fromBeBytes (l : List Nat) : Nat :=
  l.foldl (fun a b => a * 256 + b) 0

theorem length_beBytes (w n : Nat) : (beBytes w n).length = w := by
  induction w generalizing n with
  | zero => rfl
  | succ w ih => simp [beBytes, ih]

theorem foldl_base (l : List Nat) (a : Nat) :
    l.foldl (fun a b => a * 256 + b) a =
      a * 256 ^ l.length + l.foldl (fun a b => a * 256 + b) 0 := by
  induction l generalizing a with
  | nil => simp
  | cons x xs ih =>
    simp only [List.foldl_cons, List.length_cons]
    rw [ih (a * 256 + x), ih (0 * 256 + x)]
    ring

theorem fromBeBytes_append_single (l : List Nat) (b : Nat) :
    fromBeBytes (l ++ [b]) = fromBeBytes l * 256 + b := by
  simp [fromBeBytes, List.foldl_append]

theorem fromBeBytes_beBytes (w n : Nat) :
    fromBeBytes (beBytes w n) = n % 256 ^ w := by
  induction w generalizing n with
  | zero => simp [beBytes, fromBeBytes, Nat.mod_one]
  | succ w ih =>
    rw [beBytes, fromBeBytes_append_single, ih]
    have h256 : (256 : Nat) ^ (w + 1) = 256 * 256 ^ w := by ring
    rw [h256, Nat.mod_mul]
    ring

/-- Two's-complement encoding of an i64 value as a natural number below 2^64. -/
def i64ToNat (x : Int) : Nat := (x % (2 ^ 64 : Nat)).toNat

/-- Decoding of a natural number below 2^64 back into an i64 value. -/
def natToI64 (n : Nat) : Int :=
  if n < 2 ^ 63 then (n : Int) else (n : Int) - 2 ^ 64

theorem natToI64_i64ToNat (x : Int) (hlo : -(2 ^ 63) ≤ x) (hhi : x < 2 ^ 63) :
    natToI64 (i64ToNat x) = x := by
  unfold natToI64 i64ToNat
  rcases le_or_lt 0 x with hx | hx
  · have hmod : x % (2 ^ 64 : Nat) = x := by
      apply Int.emod_eq_of_lt hx
      push_cast
      omega
    rw [hmod]
    have hx63 : x.toNat < 2 ^ 63 := by omega
    rw [if_pos hx63]
    omega
  · have hmod : x % (2 ^ 64 : Nat) = x + 2 ^ 64 := by
      have : x % (2 ^ 64 : Nat) = (x + 2 ^ 64) % (2 ^ 64 : Nat) := by
        push_cast
        omega
      rw [this]
      apply Int.emod_eq_of_lt (by omega)
      push_cast
      omega
    rw [hmod]
    have h2 : ¬ ((x + 2 ^ 64).toNat < 2 ^ 63) := by omega
    rw [if_neg h2]
    omega

/-! ### TimestampedFrame wire format (frame-bucket/common/src/frame.rs) -/

/-- Payload carried inside a frame, mirroring FramePayload in frame.rs. -/
inductive FramePayload where
  | jpeg (data : List Nat)
  | h264 (data : List Nat) (nalType : Nat)
  deriving DecidableEq, Repr

/-- A camera frame with timestamp metadata, mirroring TimestampedFrame. -/
structure TimestampedFrame where
  payload : FramePayload
  capturedAtMs : Int
  seq : Nat
  deriving DecidableEq, Repr

/-- Deserialization error, mirroring FrameError::TooShort. -/
inductive FrameError where
  | tooShort (got expected : Nat)
  deriving DecidableEq, Repr

def V1_HEADER_SIZE : Nat := 16
def V2_HEADER_SIZE : Nat := 22
def V2_MARKER : Nat := 2

/-- Serialize a frame to its binary Kafka wire format, mirroring
TimestampedFrame::serialize.  The u32 length field truncates the payload
length modulo 2^32 exactly as the Rust as-cast does. -/
def TimestampedFrame.serialize (f : TimestampedFrame) : List Nat :=
  match f.payload with
  | .jpeg data =>
      beBytes 8 (i64ToNat f.capturedAtMs) ++ beBytes 8 f.seq ++ data
  | .h264 data nalType =>
      V2_MARKER :: nalType :: (beBytes 8 (i64ToNat f.capturedAtMs) ++
        beBytes 8 f.seq ++ beBytes 4 data.length ++ data)

/-- Deserialize a binary Kafka payload, auto-detecting v1 (JPEG) from v2
(H.264), mirroring TimestampedFrame::deserialize. -/
def TimestampedFrame.deserialize (data : List Nat) :
    Except FrameError TimestampedFrame :=
  if data.length = 0 then
    .error (.tooShort 0 V1_HEADER_SIZE)
  else if data.headI = V2_MARKER then
    if data.length < V2_HEADER_SIZE then
      .error (.tooShort data.length V2_HEADER_SIZE)
    else if data.length < V2_HEADER_SIZE + fromBeBytes ((data.drop 18).take 4) then
      .error (.tooShort data.length
        (V2_HEADER_SIZE + fromBeBytes ((data.drop 18).take 4)))
    else
      .ok ⟨.h264 ((data.drop V2_HEADER_SIZE).take
              (fromBeBytes ((data.drop 18).take 4))) (data.getD 1 0),
           natToI64 (fromBeBytes ((data.drop 2).take 8)),
           fromBeBytes ((data.drop 10).take 8)⟩
  else
    if data.length < V1_HEADER_SIZE then
      .error (.tooShort data.length V1_HEADER_SIZE)
    else
      .ok ⟨.jpeg (data.drop V1_HEADER_SIZE),
           natToI64 (fromBeBytes (data.take 8)),
           fromBeBytes ((data.drop 8).take 8)⟩

theorem beBytes_succ (w n : Nat) :
    beBytes (w + 1) n = (n / 256 ^ w % 256) :: beBytes w n := by
  induction w generalizing n with
  | zero => simp [beBytes]
  | succ w ih =>
    have step : beBytes (w + 2) n = beBytes (w + 1) (n / 256) ++ [n % 256] := rfl
    rw [step, ih (n / 256), Nat.div_div_eq_div_mul]
    have hpow : 256 * 256 ^ w = 256 ^ (w + 1) := by ring
    rw [hpow]
    rfl

theorem i64ToNat_lt (x : Int) : i64ToNat x < 2 ^ 64 := by
  unfold i64ToNat
  have hpos : (0 : Int) < (2 ^ 64 : Nat) := by positivity
  have := Int.emod_lt_of_pos x hpos
  have := Int.emod_nonneg x (ne_of_gt hpos)
  omega

theorem fromBeBytes_beBytes_of_lt {w n : Nat} (h : n < 256 ^ w) :
    fromBeBytes (beBytes w n) = n := by
  rw [fromBeBytes_beBytes, Nat.mod_eq_of_lt h]

theorem take_len_append {a rest : List Nat} {k : Nat} (ha : a.length = k) :
    (a ++ rest).take k = a := by
  subst ha
  exact List.take_left a rest

theorem drop_len_append {a rest : List Nat} {k : Nat} (ha : a.length = k) :
    (a ++ rest).drop k = rest := by
  subst ha
  exact List.drop_left a rest

/-- Claim C1 (counterexample input): a v1 JPEG frame whose timestamp has
0x02 in its high byte, so the serialized buffer begins with the v2 marker. -/
def c1BadJpegFrame : TimestampedFrame :=
  ⟨.jpeg [], 144115188075855872, 0⟩

/-- C1: the round-trip law fails as universally stated.  For the JPEG frame
with captured_at_ms = 0x0200000000000000 (high byte 0x02), serialization
produces a buffer beginning with 0x02, so deserialize takes the v2 path and
fails with TooShort instead of returning the frame. -/
theorem c1_roundtrip_counterexample :
    TimestampedFrame.deserialize c1BadJpegFrame.serialize =
        Except.error (FrameError.tooShort 16 22) ∧
      TimestampedFrame.deserialize c1BadJpegFrame.serialize ≠
        Except.ok c1BadJpegFrame := by
  refine ⟨rfl, ?_⟩
  intro h
  rw [show TimestampedFrame.deserialize c1BadJpegFrame.serialize =
      Except.error (FrameError.tooShort 16 22) from rfl] at h
  exact Except.noConfusion h

/-- C1 (amended): deserialize(serialize(f)) = f for every frame whose fields
fit their Rust types, provided (v1 JPEG) the big-endian encoding of
captured_at_ms does not begin with the byte 0x02 and (v2 H.264) the payload
is shorter than 2^32 bytes. -/
theorem c1_serialize_roundtrip (f : TimestampedFrame)
    (htsLo : -(2 ^ 63) ≤ f.capturedAtMs) (htsHi : f.capturedAtMs < 2 ^ 63)
    (hseq : f.seq < 2 ^ 64)
    (hjpeg : ∀ d, f.payload = .jpeg d → i64ToNat f.capturedAtMs / 2 ^ 56 ≠ 2)
    (hh264 : ∀ d n, f.payload = .h264 d n → d.length < 2 ^ 32) :
    TimestampedFrame.deserialize f.serialize = Except.ok f := by
  obtain ⟨p, ts, seq⟩ := f
  have hts : natToI64 (i64ToNat ts) = ts := natToI64_i64ToNat ts htsLo htsHi
  cases p with
  | jpeg d =>
    have hhead := hjpeg d rfl
    simp only [TimestampedFrame.serialize]
    have hb8 : (beBytes 8 (i64ToNat ts)).length = 8 := length_beBytes ..
    have hs8 : (beBytes 8 seq).length = 8 := length_beBytes ..
    have hlen : (beBytes 8 (i64ToNat ts) ++ (beBytes 8 seq ++ d)).length =
        16 + d.length := by
      simp [hb8, hs8]
      omega
    have hlt : i64ToNat ts / 2 ^ 56 < 256 := by
      have h1 := i64ToNat_lt ts
      omega
    have hheadI : (beBytes 8 (i64ToNat ts) ++ (beBytes 8 seq ++ d)).headI =
        i64ToNat ts / 2 ^ 56 := by
      rw [show (8 : Nat) = 7 + 1 from rfl, beBytes_succ,
        show (256 : Nat) ^ 7 = 2 ^ 56 by norm_num]
      simp only [List.cons_append, List.headI]
      exact Nat.mod_eq_of_lt hlt
    have hdrop8 : (beBytes 8 (i64ToNat ts) ++ (beBytes 8 seq ++ d)).drop 8 =
        beBytes 8 seq ++ d := drop_len_append hb8
    have hdrop16 : (beBytes 8 (i64ToNat ts) ++ (beBytes 8 seq ++ d)).drop
        V1_HEADER_SIZE = d := by
      show (beBytes 8 (i64ToNat ts) ++ (beBytes 8 seq ++ d)).drop 16 = d
      rw [show (16 : Nat) = 8 + 8 from rfl, ← List.drop_drop, hdrop8]
      exact drop_len_append hs8
    unfold TimestampedFrame.deserialize
    rw [List.append_assoc]
    split
    · rename_i h0
      rw [hlen] at h0
      omega
    · split
      · rename_i hm
        rw [hheadI] at hm
        exact absurd hm hhead
      · split
        · rename_i hshort
          rw [hlen] at hshort
          unfold V1_HEADER_SIZE at hshort
          omega
        · rw [take_len_append hb8, hdrop8, take_len_append hs8, hdrop16,
            fromBeBytes_beBytes_of_lt (by exact_mod_cast i64ToNat_lt ts),
            fromBeBytes_beBytes_of_lt (by exact_mod_cast hseq), hts]
  | h264 d nal =>
    have hdlen := hh264 d nal rfl
    simp only [TimestampedFrame.serialize]
    have hb8 : (beBytes 8 (i64ToNat ts)).length = 8 := length_beBytes ..
    have hs8 : (beBytes 8 seq).length = 8 := length_beBytes ..
    have hl4 : (beBytes 4 d.length).length = 4 := length_beBytes ..
    rw [List.append_assoc, List.append_assoc]
    have hdrop2 : (V2_MARKER :: nal :: (beBytes 8 (i64ToNat ts) ++
        (beBytes 8 seq ++ (beBytes 4 d.length ++ d)))).drop 2 =
        beBytes 8 (i64ToNat ts) ++ (beBytes 8 seq ++ (beBytes 4 d.length ++ d)) :=
      rfl
    have hdrop10 : (V2_MARKER :: nal :: (beBytes 8 (i64ToNat ts) ++
        (beBytes 8 seq ++ (beBytes 4 d.length ++ d)))).drop 10 =
        beBytes 8 seq ++ (beBytes 4 d.length ++ d) := by
      rw [show (10 : Nat) = 2 + 8 from rfl, ← List.drop_drop, hdrop2]
      exact drop_len_append hb8
    have hdrop18 : (V2_MARKER :: nal :: (beBytes 8 (i64ToNat ts) ++
        (beBytes 8 seq ++ (beBytes 4 d.length ++ d)))).drop 18 =
        beBytes 4 d.length ++ d := by
      rw [show (18 : Nat) = 10 + 8 from rfl, ← List.drop_drop, hdrop10]
      exact drop_len_append hs8
    have hdrop22 : (V2_MARKER :: nal :: (beBytes 8 (i64ToNat ts) ++
        (beBytes 8 seq ++ (beBytes 4 d.length ++ d)))).drop V2_HEADER_SIZE = d := by
      show (V2_MARKER :: nal :: (beBytes 8 (i64ToNat ts) ++
        (beBytes 8 seq ++ (beBytes 4 d.length ++ d)))).drop 22 = d
      rw [show (22 : Nat) = 18 + 4 from rfl, ← List.drop_drop, hdrop18]
      exact drop_len_append hl4
    have hlen22 : (V2_MARKER :: nal :: (beBytes 8 (i64ToNat ts) ++
        (beBytes 8 seq ++ (beBytes 4 d.length ++ d)))).length = 22 + d.length := by
      simp [hb8, hs8, hl4]
      omega
    have hfour : fromBeBytes ((V2_MARKER :: nal :: (beBytes 8 (i64ToNat ts) ++
        (beBytes 8 seq ++ (beBytes 4 d.length ++ d)))).drop 18 |>.take 4) =
        d.length := by
      rw [hdrop18, take_len_append hl4,
        fromBeBytes_beBytes_of_lt (by exact_mod_cast hdlen)]
    unfold TimestampedFrame.deserialize
    split
    · rename_i h0
      rw [hlen22] at h0
      omega
    · split
      · split
        · rename_i hshort
          rw [hlen22] at hshort
          unfold V2_HEADER_SIZE at hshort
          omega
        · split
          · rename_i hshort
            rw [hfour, hlen22] at hshort
            unfold V2_HEADER_SIZE at hshort
            omega
          · rw [hfour, hdrop2, hdrop10, hdrop22,
              take_len_append hb8, take_len_append hs8,
              fromBeBytes_beBytes_of_lt (by exact_mod_cast i64ToNat_lt ts),
              fromBeBytes_beBytes_of_lt (by exact_mod_cast hseq), hts,
              List.take_length]
            rfl
      · rename_i hm
        exact absurd rfl hm

/-- C1 witness: the amended round-trip law applied to a concrete JPEG frame
and a concrete H.264 frame. -/
theorem c1_serialize_roundtrip_witness :
    TimestampedFrame.deserialize
        (TimestampedFrame.serialize ⟨.jpeg [255, 216], 1708300000000, 42⟩) =
      Except.ok ⟨.jpeg [255, 216], 1708300000000, 42⟩ ∧
    TimestampedFrame.deserialize
        (TimestampedFrame.serialize ⟨.h264 [0, 0, 0, 1, 101] 5, 1708300000000, 99⟩) =
      Except.ok ⟨.h264 [0, 0, 0, 1, 101] 5, 1708300000000, 99⟩ := by
  constructor
  · exact c1_serialize_roundtrip _ (by decide) (by decide) (by decide)
      (by intro d h; decide) (by intro d n h; simp at h)
  · exact c1_serialize_roundtrip _ (by decide) (by decide) (by decide)
      (by intro d h; simp at h) (by intro d n h; cases h; decide)

/-! ### Frame-size heuristic filter (frame-bucket/consumer/src/filter/framesize.rs)

The Rust f64 fields are modelled by exact rationals; alpha = 0.05 = 1/20.
The claims under check concern the branching structure of the filter
(warmup, IDR handling, which comparisons gate the result and when the EMA
is updated), none of which depends on floating-point rounding.
-/

structure FrameSizeFilter where
  avgPFrameSize : ℚ
  alpha : ℚ
  spikeRatio : ℚ
  framesSeen : Nat
  warmupFrames : Nat
  deriving DecidableEq, Repr

def FrameSizeFilter.new (spikeRatio : ℚ) : FrameSizeFilter :=
  ⟨0, 1 / 20, spikeRatio, 0, 30⟩

/-- Mirrors FrameSizeFilter::update_ema. -/
def FrameSizeFilter.updateEma (f : FrameSizeFilter) (frameSize : Nat) :
    FrameSizeFilter :=
  if f.avgPFrameSize = 0 then
    { f with avgPFrameSize := (frameSize : ℚ) }
  else
    { f with avgPFrameSize :=
        f.alpha * frameSize + (1 - f.alpha) * f.avgPFrameSize }

/-- Mirrors FrameSizeFilter::is_active.  Returns the verdict together with
the updated filter state (the Rust method mutates self). -/
def FrameSizeFilter.isActive (f : FrameSizeFilter) (frameSize : Nat)
    (nalType : Nat) : Bool × FrameSizeFilter :=
  let f1 := { f with framesSeen := f.framesSeen + 1 }
  if nalType = 5 then
    (true, f1)
  else if f1.framesSeen ≤ f1.warmupFrames then
    (true, f1.updateEma frameSize)
  else
    (decide (0 < f1.avgPFrameSize ∧
       f1.spikeRatio * f1.avgPFrameSize < (frameSize : ℚ)),
     f1.updateEma frameSize)

/-- Mirrors FrameSizeFilter::is_quiet. -/
def FrameSizeFilter.isQuiet (f : FrameSizeFilter) (frameSize : Nat) : Bool :=
  if f.avgPFrameSize ≤ 0 then false
  else decide ((frameSize : ℚ) ≤ f.spikeRatio * f.avgPFrameSize)

/-- C4: warmup accepts every frame for the first 30 calls; an IDR frame is
always active and never updates the EMA; a P-frame always updates the EMA
(including spikes); after warmup a P-frame is active iff the EMA is positive
and the size strictly exceeds spike_ratio times the EMA; and is_quiet holds
iff the EMA is positive and the size is at most spike_ratio times the EMA. -/
theorem c4_framesize_filter (f : FrameSizeFilter) (size nal : Nat)
    (hwarm : f.warmupFrames = 30) :
    (f.framesSeen < 30 → (f.isActive size nal).1 = true) ∧
    (nal = 5 → (f.isActive size nal).1 = true ∧
      (f.isActive size nal).2.avgPFrameSize = f.avgPFrameSize) ∧
    (nal ≠ 5 → (f.isActive size nal).2.avgPFrameSize =
      (if f.avgPFrameSize = 0 then (size : ℚ)
       else f.alpha * size + (1 - f.alpha) * f.avgPFrameSize)) ∧
    (nal ≠ 5 → 30 ≤ f.framesSeen →
      ((f.isActive size nal).1 = true ↔
        0 < f.avgPFrameSize ∧
          f.spikeRatio * f.avgPFrameSize < (size : ℚ))) ∧
    (f.isQuiet size = true ↔
      0 < f.avgPFrameSize ∧ (size : ℚ) ≤ f.spikeRatio * f.avgPFrameSize) := by
  unfold FrameSizeFilter.isActive FrameSizeFilter.isQuiet
    FrameSizeFilter.updateEma
  refine ⟨?_, ?_, ?_, ?_, ?_⟩
  · intro hseen
    by_cases h5 : nal = 5
    · simp [h5]
    · simp only [h5, if_neg, ite_false]
      rw [if_pos (by simp [hwarm]; omega)]
  · intro h5
    simp [h5]
  · intro h5
    by_cases hwu : f.framesSeen + 1 ≤ f.warmupFrames
    · simp only [h5, ite_false, if_neg]
      rw [if_pos (by simpa using hwu)]
      by_cases hz : f.avgPFrameSize = 0 <;> simp [hz]
    · simp only [h5, ite_false, if_neg]
      rw [if_neg (by simpa using hwu)]
      by_cases hz : f.avgPFrameSize = 0 <;> simp [hz]
  · intro h5 hseen
    simp only [h5, ite_false, if_neg]
    rw [if_neg (by simp [hwarm]; omega)]
    simp
  · by_cases hz : f.avgPFrameSize ≤ 0
    · simp only [hz, if_pos]
      constructor
      · intro h
        exact absurd h (by simp)
      · intro ⟨h1, _⟩
        exact absurd hz (by linarith)
    · rw [if_neg hz]
      push_neg at hz
      simp [hz]

/-- C4 witness: a concrete post-warmup filter state with EMA 1000 and
spike ratio 4 classifies a 5000-byte P-frame as active. -/
theorem c4_framesize_filter_witness :
    ((FrameSizeFilter.mk 1000 (1 / 20) 4 31 30).isActive 5000 1).1 = true := by
  have h := c4_framesize_filter (FrameSizeFilter.mk 1000 (1 / 20) 4 31 30)
    5000 1 rfl
  exact (h.2.2.2.1 (by decide) (by decide)).mpr (by norm_num)

/-! ### Recording state machine (frame-bucket/consumer/src/recorder/state.rs)

The state machine is embedded as pure transition functions.  Quantities the
Rust code obtains from the outside world are oracle parameters: whether the
monotonic segment deadline has passed (Instant::now() >= segment_deadline),
whether the encoder push succeeded, whether spawning a replacement encoder
succeeded, and the aHash of the decoded frame.  Storage and database effects
are modelled separately (see the finalization section); here a finalized
segment shows up as its end timestamp in the returned list.
-/

/-- Mirrors hamming in filter/phash.rs: positions where two binary hashes
disagree, over the zipped common prefix. -/
def hamming (a b : List Bool) : Nat :=
  ((a.zip b).filter (fun p => p.1 ≠ p.2)).length

/-- Mirrors RecordingState in recorder/state.rs (the encoder handle and the
monotonic deadline live outside the pure model). -/
inductive RecState where
  | idle (initialPayload : List Nat) (isH264 : Bool)
      (initialHash : Option (List Bool)) (idleStartMs lastSimilarMs : Int)
  | active (isH264 : Bool) (segmentStartMs : Int)
      (lastFrameHash : Option (List Bool)) (consecutiveIdleCount : Nat)
  deriving DecidableEq, Repr

/-- Mirrors RecordingStateMachine::handle_active_jpeg.  Returns the successor
state and the end timestamps of the active segments finalized during the
call (each corresponds to one finish_and_upload_segment invocation). -/
def handleActiveJpeg (activeToIdle phashThreshold : Nat)
    (deadlineReached pushOk newSegOk : Bool)
    (segmentStartMs : Int) (lastFrameHash : List Bool) (count : Nat)
    (ts : Int) (jpeg : List Nat) (hash : List Bool) :
    RecState × List Int :=
  if deadlineReached then
    (if newSegOk then RecState.active false ts (some hash) 0
     else RecState.idle jpeg false (some hash) ts ts, [ts])
  else if !pushOk then
    (RecState.idle jpeg false (some hash) ts ts, [ts])
  else if hamming lastFrameHash hash ≤ phashThreshold then
    if activeToIdle ≤ count + 1 then
      (RecState.idle jpeg false (some hash) ts ts, [ts])
    else
      (RecState.active false segmentStartMs (some hash) (count + 1), [])
  else
    (RecState.active false segmentStartMs (some hash) 0, [])

/-- Mirrors the Active arm of RecordingStateMachine::process_h264_frame.
The frame-size filter is updated by the is_active call at the top of
process_h264_frame before the Active arm runs, and the quiet test uses the
updated filter. -/
def handleActiveH264 (activeToIdle : Nat)
    (deadlineReached pushOk newSegOk : Bool) (filter : FrameSizeFilter)
    (segmentStartMs : Int) (count : Nat)
    (ts : Int) (data : List Nat) (nal : Nat) :
    RecState × List Int × FrameSizeFilter :=
  let f1 := (filter.isActive data.length nal).2
  if deadlineReached then
    (if newSegOk then RecState.active true ts none 0
     else RecState.idle data true none ts ts, [ts], f1)
  else if !pushOk then
    (RecState.idle data true none ts ts, [ts], f1)
  else if f1.isQuiet data.length then
    if activeToIdle ≤ count + 1 then
      (RecState.idle data true none ts ts, [ts], f1)
    else
      (RecState.active true segmentStartMs none (count + 1), [], f1)
  else
    (RecState.active true segmentStartMs none 0, [], f1)

/-- C3: in Active, away from the deadline and encoder-failure paths, a
similar (JPEG) or quiet (H.264) frame increments consecutive_idle_count, a
non-similar frame resets it to 0, and when the incremented count reaches
active_to_idle_consecutive_frames exactly one active segment is finalized
and the machine enters Idle with the current frame as the new baseline. -/
theorem c3_active_to_idle_counting (activeToIdle phashThreshold : Nat)
    (newSegOk : Bool) (filter : FrameSizeFilter)
    (segmentStartMs : Int) (lastFrameHash : List Bool) (count : Nat)
    (ts : Int) (jpeg data : List Nat) (hash : List Bool) (nal : Nat) :
    (hamming lastFrameHash hash ≤ phashThreshold →
      count + 1 < activeToIdle →
      handleActiveJpeg activeToIdle phashThreshold false true newSegOk
          segmentStartMs lastFrameHash count ts jpeg hash =
        (RecState.active false segmentStartMs (some hash) (count + 1), [])) ∧
    (hamming lastFrameHash hash ≤ phashThreshold →
      activeToIdle ≤ count + 1 →
      handleActiveJpeg activeToIdle phashThreshold false true newSegOk
          segmentStartMs lastFrameHash count ts jpeg hash =
        (RecState.idle jpeg false (some hash) ts ts, [ts])) ∧
    (phashThreshold < hamming lastFrameHash hash →
      handleActiveJpeg activeToIdle phashThreshold false true newSegOk
          segmentStartMs lastFrameHash count ts jpeg hash =
        (RecState.active false segmentStartMs (some hash) 0, [])) ∧
    ((((filter.isActive data.length nal).2).isQuiet data.length = true →
      count + 1 < activeToIdle →
      handleActiveH264 activeToIdle false true newSegOk filter
          segmentStartMs count ts data nal =
        (RecState.active true segmentStartMs none (count + 1), [],
         (filter.isActive data.length nal).2)) ∧
    (((filter.isActive data.length nal).2).isQuiet data.length = true →
      activeToIdle ≤ count + 1 →
      handleActiveH264 activeToIdle false true newSegOk filter
          segmentStartMs count ts data nal =
        (RecState.idle data true none ts ts, [ts],
         (filter.isActive data.length nal).2)) ∧
    (((filter.isActive data.length nal).2).isQuiet data.length = false →
      handleActiveH264 activeToIdle false true newSegOk filter
          segmentStartMs count ts data nal =
        (RecState.active true segmentStartMs none 0, [],
         (filter.isActive data.length nal).2))) := by
  refine ⟨?_, ?_, ?_, ?_, ?_, ?_⟩
  · intro hsim hlt
    unfold handleActiveJpeg
    rw [if_neg (by simp), if_neg (by simp), if_pos hsim, if_neg (by omega)]
  · intro hsim hge
    unfold handleActiveJpeg
    rw [if_neg (by simp), if_neg (by simp), if_pos hsim, if_pos hge]
  · intro hdiff
    unfold handleActiveJpeg
    rw [if_neg (by simp), if_neg (by simp), if_neg (by omega)]
  · intro hq hlt
    unfold handleActiveH264
    rw [if_neg (by simp), if_neg (by simp), if_pos (by simpa using hq),
      if_neg (by omega)]
  · intro hq hge
    unfold handleActiveH264
    rw [if_neg (by simp), if_neg (by simp), if_pos (by simpa using hq),
      if_pos hge]
  · intro hq
    unfold handleActiveH264
    rw [if_neg (by simp), if_neg (by simp), if_neg (by simp [hq])]

/-- C3 witness: with the default active_to_idle_consecutive_frames = 5 and
count = 4, a fifth consecutive similar frame finalizes exactly one segment
and re-enters Idle with the current frame as baseline. -/
theorem c3_active_to_idle_counting_witness :
    handleActiveJpeg 5 26 false true true 1000 [true, false] 4
        2000 [255, 216] [true, false] =
      (RecState.idle [255, 216] false (some [true, false]) 2000 2000,
       [2000]) :=
  (c3_active_to_idle_counting 5 26 true (FrameSizeFilter.new 4) 1000
    [true, false] 4 2000 [255, 216] [] [true, false] 0).2.1
    (by decide) (by decide)

/-! ### Finalization effects (frame-bucket/consumer/src/recorder/state.rs)

Mirrors finish_and_upload_segment and upload_idle_record as pure functions
of the external outcomes, returning the sequence of storage and database
actions performed.
-/

inductive RecEvent where
  | putSegment (ok : Bool)
  | insertActive (startMs endMs : Int) (sizeBytes frameCount : Nat)
  | putIdleFrame (ok : Bool)
  | insertIdle (startMs endMs : Int) (sizeBytes : Nat)
  deriving DecidableEq, Repr

def RecEvent.isDbInsert : RecEvent → Bool
  | .insertActive _ _ _ _ => true
  | .insertIdle _ _ _ => true
  | _ => false

/-- Mirrors RecordingStateMachine::finish_and_upload_segment.  finishRes is
the encoder outcome (mp4 bytes and frame count, or None on a non-zero
exit), putOk the local-store put outcome, hasDb whether a SQLite index is
configured. -/
def finishAndUploadSegment (hasDb : Bool)
    (finishRes : Option (List Nat × Nat)) (putOk : Bool)
    (startMs endMs : Int) : List RecEvent :=
  match finishRes with
  | none => []
  | some (mp4, frameCount) =>
    if putOk then
      RecEvent.putSegment true ::
        (if hasDb then [RecEvent.insertActive startMs endMs mp4.length frameCount]
         else [])
    else
      [RecEvent.putSegment false]

/-- Mirrors RecordingStateMachine::upload_idle_record.  For H.264 no media
is stored and the index row is written unconditionally; for JPEG the put
runs first and the row is only written on success. -/
def uploadIdleRecord (hasDb : Bool) (isH264 : Bool) (putOk : Bool)
    (payload : List Nat) (idleStartMs idleEndMs : Int) : List RecEvent :=
  if isH264 then
    if hasDb then [RecEvent.insertIdle idleStartMs idleEndMs 0] else []
  else
    if putOk then
      RecEvent.putIdleFrame true ::
        (if hasDb then
           [RecEvent.insertIdle idleStartMs idleEndMs payload.length]
         else [])
    else
      [RecEvent.putIdleFrame false]

/-- C6: when the local-store PUT fails during finalization of a JPEG idle
record or an active segment, no index row is inserted: neither trace
contains a database insert. -/
theorem c6_no_insert_on_put_failure (hasDb : Bool)
    (finishRes : Option (List Nat × Nat)) (payload : List Nat)
    (startMs endMs : Int) :
    (finishAndUploadSegment hasDb finishRes false startMs endMs).all
        (fun e => !e.isDbInsert) = true ∧
    (uploadIdleRecord hasDb false false payload startMs endMs).all
        (fun e => !e.isDbInsert) = true := by
  constructor
  · cases finishRes with
    | none => rfl
    | some p => rfl
  · rfl

/-! ### Eviction batch (frame-bucket/consumer/src/eviction.rs, evict_batch)

The S3 clients are oracles: getOk, putOk, delOk give the outcome of the
local-store download, the archive upload and the local delete per key.  The
in-memory session index (storage.rs, BTreeMap keyed by captured_at_ms with
unique keys) is a list of (timestamp, size) pairs; delete_object removes the
entry only when the S3 delete succeeded, as in storage.rs.  The trace
records archive puts and local-store delete invocations in program order.
-/

structure EvEntry where
  key : List Nat
  size : Nat
  ts : Int
  deriving DecidableEq, Repr

inductive EvEvent where
  | archivePut (key : List Nat)
  | archivePutFailed (key : List Nat)
  | localDelete (key : List Nat)
  deriving DecidableEq, Repr

inductive EvictionError where
  | download
  | upload
  deriving DecidableEq, Repr

structure EvStorage where
  sessionIdx : List (Int × Nat)
  baselineBytes : Nat
  baselineObjects : Nat
  deriving DecidableEq, Repr

def sessionBytes (idx : List (Int × Nat)) : Nat :=
  (idx.map Prod.snd).sum

def idxRemove (idx : List (Int × Nat)) (ts : Int) : List (Int × Nat) :=
  idx.filter (fun p => p.1 ≠ ts)

def idxContains (idx : List (Int × Nat)) (ts : Int) : Bool :=
  idx.any (fun p => p.1 = ts)

/-- Storage bookkeeping after a successful archive put of one entry:
delete_object removes the session-index entry when the local delete
succeeds, and the baseline is decremented with saturating subtraction only
for objects that were not in the session index. -/
def evictUpdate (delOk : List Nat → Bool) (st : EvStorage) (e : EvEntry) :
    EvStorage :=
  let st1 :=
    if delOk e.key then
      { st with sessionIdx := idxRemove st.sessionIdx e.ts }
    else st
  if !idxContains st.sessionIdx e.ts then
    { st1 with baselineBytes := st1.baselineBytes - e.size,
               baselineObjects := st1.baselineObjects - 1 }
  else st1

/-- Mirrors evict_batch: for each listed entry, check session-index
membership, download from the local store, upload to the archive, and only
on upload success delete locally and adjust the baseline, stopping early
once the running total falls below the target.  A download or upload
failure aborts the batch with an error. -/
def evictBatch (getOk putOk delOk : List Nat → Bool) (targetBytes : Nat) :
    EvStorage → List EvEntry → Nat →
    List EvEvent × EvStorage × Except EvictionError Nat
  | st, [], evicted => ([], st, .ok evicted)
  | st, e :: rest, evicted =>
    if !getOk e.key then
      ([], st, .error .download)
    else if putOk e.key then
      let st2 := evictUpdate delOk st e
      if st2.baselineBytes + sessionBytes st2.sessionIdx < targetBytes then
        ([.archivePut e.key, .localDelete e.key], st2, .ok (evicted + 1))
      else
        let r := evictBatch getOk putOk delOk targetBytes st2 rest (evicted + 1)
        (.archivePut e.key :: .localDelete e.key :: r.1, r.2.1, r.2.2)
    else
      ([.archivePutFailed e.key], st, .error .upload)

/-- Checks that every local delete in a trace is immediately preceded by a
successful archive put of the same key, with at most a trailing failed put. -/
def deletesFollowPuts : List EvEvent → Bool
  | [] => true
  | .archivePut k :: .localDelete k2 :: rest =>
      decide (k = k2) && deletesFollowPuts rest
  | [.archivePutFailed _] => true
  | _ => false

/-- C2: in a normal-mode eviction batch, every local-store delete is
immediately preceded by a successful archive put of the same object; a
delete is only ever invoked for keys whose archive put succeeds; and when
an archive put fails the batch returns an upload error and that object is
never deleted. -/
theorem c2_evict_upload_then_delete (getOk putOk delOk : List Nat → Bool)
    (targetBytes : Nat) (st : EvStorage) (entries : List EvEntry)
    (evicted : Nat) :
    deletesFollowPuts
        (evictBatch getOk putOk delOk targetBytes st entries evicted).1 =
      true ∧
    (∀ k, EvEvent.localDelete k ∈
        (evictBatch getOk putOk delOk targetBytes st entries evicted).1 →
      putOk k = true) ∧
    (∀ k, EvEvent.archivePutFailed k ∈
        (evictBatch getOk putOk delOk targetBytes st entries evicted).1 →
      putOk k = false ∧
      (evictBatch getOk putOk delOk targetBytes st entries evicted).2.2 =
        Except.error EvictionError.upload ∧
      EvEvent.localDelete k ∉
        (evictBatch getOk putOk delOk targetBytes st entries evicted).1) := by
  induction entries generalizing st evicted with
  | nil =>
    refine ⟨rfl, ?_, ?_⟩
    · intro k hk
      exact absurd hk (List.not_mem_nil _)
    · intro k hk
      exact absurd hk (List.not_mem_nil _)
  | cons e rest ih =>
    rw [evictBatch]
    split
    · -- download failed: no events, Err(Download)
      refine ⟨rfl, ?_, ?_⟩
      · intro k hk
        exact absurd hk (List.not_mem_nil _)
      · intro k hk
        exact absurd hk (List.not_mem_nil _)
    · rename_i hget
      split
      · -- upload succeeded: delete, then either stop or recurse
        rename_i hput
        dsimp only
        split
        · refine ⟨by simp [deletesFollowPuts], ?_, ?_⟩
          · intro k hk
            rw [List.mem_cons, List.mem_cons] at hk
            rcases hk with h | h | h
            · exact absurd h (by simp)
            · injection h with h1
              rw [h1]
              exact hput
            · exact absurd h (List.not_mem_nil _)
          · intro k hk
            rw [List.mem_cons, List.mem_cons] at hk
            rcases hk with h | h | h
            · exact absurd h (by simp)
            · exact absurd h (by simp)
            · exact absurd h (List.not_mem_nil _)
        · obtain ⟨iha, ihb, ihc⟩ := ih (evictUpdate delOk st e) (evicted + 1)
          refine ⟨?_, ?_, ?_⟩
          · simpa [deletesFollowPuts] using iha
          · intro k hk
            rw [List.mem_cons, List.mem_cons] at hk
            rcases hk with h | h | h
            · exact absurd h (by simp)
            · injection h with h1
              rw [h1]
              exact hput
            · exact ihb k h
          · intro k hk
            rw [List.mem_cons, List.mem_cons] at hk
            rcases hk with h | h | h
            · exact absurd h (by simp)
            · exact absurd h (by simp)
            · obtain ⟨h1, h2, h3⟩ := ihc k h
              refine ⟨h1, h2, ?_⟩
              intro hmem
              rw [List.mem_cons, List.mem_cons] at hmem
              rcases hmem with hm | hm | hm
              · exact absurd hm (by simp)
              · injection hm with hm1
                rw [hm1, hput] at h1
                exact Bool.noConfusion h1
              · exact h3 hm
      · -- upload failed: keep the object and return Err(Upload)
        rename_i hput
        refine ⟨rfl, ?_, ?_⟩
        · intro k hk
          rw [List.mem_cons] at hk
          rcases hk with h | h
          · exact absurd h (by simp)
          · exact absurd h (List.not_mem_nil _)
        · intro k hk
          rw [List.mem_cons] at hk
          rcases hk with h | h
          · injection h with h1
            rw [h1]
            refine ⟨by simpa using hput, rfl, ?_⟩
            intro hmem
            rw [List.mem_cons] at hmem
            rcases hmem with hm | hm
            · exact absurd hm (by simp)
            · exact absurd hm (List.not_mem_nil _)
          · exact absurd h (List.not_mem_nil _)

/-- Archive-put oracle for the C2 witness: rejects only the key [98]. -/
def putOkW : List Nat → Bool :=
  fun k => decide (k ≠ [98])

/-- C2 witness: a two-entry batch where the archive rejects the second key;
the second object is never deleted and the batch errors, while the first
object is deleted right after its successful put. -/
theorem c2_evict_upload_then_delete_witness :
    putOkW [98] = false ∧
    (evictBatch (fun _ => true) putOkW (fun _ => true) 0
        ⟨[], 100, 2⟩ [⟨[97], 10, 1⟩, ⟨[98], 10, 2⟩] 0).2.2 =
      Except.error EvictionError.upload ∧
    EvEvent.localDelete [98] ∉
      (evictBatch (fun _ => true) putOkW (fun _ => true) 0
        ⟨[], 100, 2⟩ [⟨[97], 10, 1⟩, ⟨[98], 10, 2⟩] 0).1 := by
  have h := (c2_evict_upload_then_delete (fun _ => true) putOkW
    (fun _ => true) 0 ⟨[], 100, 2⟩ [⟨[97], 10, 1⟩, ⟨[98], 10, 2⟩] 0).2.2
    [98] (by decide)
  exact ⟨h.1, h.2.1, h.2.2⟩

/-! ### Query API clip handlers (frame-bucket/api/src/main.rs)

The SQLite tables are lists of rows; queries are embedded as list
operations (find_? mirrors a WHERE ... LIMIT-like first match, in table
order as rusqlite's query_map().next() does).  HTTP statuses are the
numeric codes.  S3 and SQLite outcomes are oracle booleans.
-/

structure SegmentRow where
  id : Int
  robotId : List Nat
  segType : List Nat
  startMs : Int
  endMs : Int
  s3Key : List Nat
  sizeBytes : Option Int
  deriving DecidableEq, Repr

structure CollectionRow where
  id : Int
  robotId : List Nat
  name : List Nat
  deriving DecidableEq, Repr

structure CreateClipBody where
  segmentIds : List Int
  clipStartMs : Int
  clipEndMs : Int
  labels : List (List Nat)
  deriving DecidableEq, Repr

/-- Row inserted into collection_clips by create_clip: the stored
segment_ids JSON is serialized from the request body verbatim. -/
structure InsertedClip where
  collectionId : Int
  robotId : List Nat
  clipStartMs : Int
  clipEndMs : Int
  segmentIds : List Int
  deriving DecidableEq, Repr

structure CreateClipResult where
  status : Nat
  manifestSegments : List SegmentRow
  insertedClip : Option InsertedClip
  deriving DecidableEq, Repr

/-- Mirrors the collection-name lookup in create_clip. -/
def lookupCollectionName (cols : List CollectionRow) (cid : Int)
    (rid : List Nat) : Option (List Nat) :=
  (cols.find? (fun c => decide (c.id = cid ∧ c.robotId = rid))).map (·.name)

/-- Mirrors the per-id segment lookup loop in create_clip: the first row
with matching id and robot_id, if any. -/
def lookupSegment (segs : List SegmentRow) (rid : List Nat) (sid : Int) :
    Option SegmentRow :=
  segs.find? (fun s => decide (s.id = sid ∧ s.robotId = rid))

/-- Mirrors create_clip: 404 when the collection row is missing, 400 when no
listed segment id resolves, otherwise build the manifest from the resolved
rows, attempt the manifest put (outcome ignored beyond a log line), and
insert the clip row carrying the request's segment_ids unchanged. -/
def createClip (cols : List CollectionRow) (segs : List SegmentRow)
    (manifestPutOk insertOk : Bool) (rid : List Nat) (cid : Int)
    (body : CreateClipBody) : CreateClipResult :=
  match lookupCollectionName cols cid rid with
  | none => ⟨404, [], none⟩
  | some _ =>
    let infos := body.segmentIds.filterMap (lookupSegment segs rid)
    if infos.isEmpty then
      ⟨400, [], none⟩
    else if insertOk then
      ⟨201, infos,
       some ⟨cid, rid, body.clipStartMs, body.clipEndMs, body.segmentIds⟩⟩
    else
      ⟨500, infos, none⟩

/-- Concrete scenario rows for C7: robot r1 (bytes of "r1"), collection 1,
segment 10 present, segment 11 absent. -/
def c7Collections : List CollectionRow :=
  [⟨1, [114, 49], [99, 49]⟩]

def c7Segments : List SegmentRow :=
  [⟨10, [114, 49], [97, 99, 116, 105, 118, 101], 0, 1000, [107], some 5⟩]

def c7Body : CreateClipBody :=
  ⟨[10, 11], 0, 1000, []⟩

/-- C7: as stated the claim fails: the created clip row does not reference
only segment 10 — create_clip serializes the request's segment_ids
verbatim, so the stored row references [10, 11] even though segment 11 does
not exist. -/
theorem c7_create_clip_counterexample :
    ((createClip c7Collections c7Segments true true [114, 49] 1
        c7Body).insertedClip.map InsertedClip.segmentIds) = some [10, 11] ∧
      (some [10, 11] : Option (List Int)) ≠ some [10] := by
  exact ⟨rfl, by decide⟩

/-- C7 (amended): for the POST with segment_ids = [10, 11] where only 10
exists, the response status is 201, the manifest has exactly one segments[]
entry (segment 10), and the clip row is inserted storing the requested
segment_ids [10, 11] verbatim. -/
theorem c7_create_clip_scenario :
    (createClip c7Collections c7Segments true true [114, 49] 1 c7Body).status
        = 201 ∧
      (createClip c7Collections c7Segments true true [114, 49] 1
          c7Body).manifestSegments.length = 1 ∧
      (createClip c7Collections c7Segments true true [114, 49] 1
          c7Body).manifestSegments.map SegmentRow.id = [10] ∧
      (createClip c7Collections c7Segments true true [114, 49] 1
          c7Body).insertedClip =
        some ⟨1, [114, 49], 0, 1000, [10, 11]⟩ := by
  exact ⟨rfl, rfl, rfl, rfl⟩

/-- Row of the collection_clips table as relevant to delete_clip. -/
structure ClipRow where
  id : Int
  collectionId : Int
  robotId : List Nat
  deriving DecidableEq, Repr

/-- Mirrors delete_clip: DELETE FROM collection_clips WHERE id = ?1 AND
robot_id = ?2 — the collection_id path parameter is not part of the query.
Returns the HTTP status (404 when no row was affected, 204 otherwise) and
the remaining table. -/
def deleteClip (clips : List ClipRow) (rid : List Nat)
    (collectionId clipId : Int) : Nat × List ClipRow :=
  let affected :=
    (clips.filter (fun c => decide (c.id = clipId ∧ c.robotId = rid))).length
  (if affected = 0 then 404 else 204,
   clips.filter (fun c => !decide (c.id = clipId ∧ c.robotId = rid)))

/-- C9: delete_clip matches only by clip id and robot id — the result is
the same for every collection_id in the URL, and a clip belonging to
collection cidA is deleted with 204 through the URL of any collection
cidB of the same robot. -/
theorem c9_delete_clip_ignores_collection (clips : List ClipRow)
    (rid : List Nat) (cidA cidB clipId : Int) :
    deleteClip clips rid cidA clipId = deleteClip clips rid cidB clipId ∧
    ((∃ c ∈ clips, c.id = clipId ∧ c.robotId = rid ∧ c.collectionId = cidA) →
      (deleteClip clips rid cidB clipId).1 = 204) := by
  refine ⟨rfl, ?_⟩
  rintro ⟨c, hc, h1, h2, _⟩
  have hmem : c ∈ clips.filter
      (fun c => decide (c.id = clipId ∧ c.robotId = rid)) :=
    List.mem_filter.mpr ⟨hc, by simp [h1, h2]⟩
  have hne : (clips.filter
      (fun c => decide (c.id = clipId ∧ c.robotId = rid))).length ≠ 0 := by
    have := List.length_pos.mpr (List.ne_nil_of_mem hmem)
    omega
  unfold deleteClip
  exact if_neg hne

/-- C9 witness: a clip of collection 7 is deleted through the URL of
collection 8 of the same robot with status 204. -/
theorem c9_delete_clip_ignores_collection_witness :
    (deleteClip [⟨42, 7, [114, 49]⟩] [114, 49] 8 42).1 = 204 :=
  (c9_delete_clip_ignores_collection [⟨42, 7, [114, 49]⟩] [114, 49] 7 8
    42).2 ⟨⟨42, 7, [114, 49]⟩, by decide, rfl, rfl, rfl⟩

/-! ### MPEG-TS / H.264 producer (frame-bucket/producer/src/h264.rs)

Byte slices are lists of naturals.  Rust indexing l[i] is embedded as
List.get? and slicing &l[i..] as sliceFrom, both returning Option: a None
anywhere in the computation marks an out-of-bounds access that would panic
in Rust, so totality of the embedding (isSome) is exactly panic freedom.
Bit operations on bytes are expressed with division and remainder:
x & 0x1F = x % 32, (x >> 4) & 3 = x / 16 % 4, x & 0x40 != 0 iff
x / 64 % 2 = 1, x & 2 != 0 iff x / 2 % 2 = 1, x & 1 != 0 iff x % 2 = 1.
-/

/-- Mirrors the scanning loop of detect_nal_type with explicit fuel; the
loop runs at most data.len() iterations because i strictly increases. -/
def detectGo (data : List Nat) : Nat → Nat → Nat → Nat
  | 0, _, first => first
  | fuel + 1, i, first =>
    if i + 3 ≤ data.length then
      let nalOffset : Option Nat :=
        if data.getD i 0 = 0 ∧ data.getD (i + 1) 0 = 0 then
          if data.getD (i + 2) 0 = 1 then some (i + 3)
          else if i + 3 < data.length ∧ data.getD (i + 2) 0 = 0 ∧
              data.getD (i + 3) 0 = 1 then some (i + 4)
          else none
        else none
      match nalOffset with
      | some off =>
        if off < data.length then
          let t := data.getD off 0 % 32
          let first1 := if first = 0 then t else first
          if 1 ≤ t ∧ t ≤ 5 then t
          else detectGo data fuel off first1
        else detectGo data fuel off first
      | none => detectGo data fuel (i + 1) first
    else first

/-- Mirrors detect_nal_type: scan for 3- or 4-byte start codes, return the
type of the first VCL NAL (1..=5), falling back to the first NAL type seen. -/
def detectNalType (data : List Nat) : Nat :=
  detectGo data (data.length + 1) 0 0

/-- C8: detect_nal_type on the claim's concrete access units: a 4-byte
start code before an IDR gives 5, a 3-byte start code before a non-IDR
slice gives 1, empty data gives 0, and SPS followed by IDR gives 5. -/
theorem c8_detect_nal_type :
    detectNalType [0, 0, 0, 1, 101, 170] = 5 ∧
    detectNalType [0, 0, 1, 65] = 1 ∧
    detectNalType [] = 0 ∧
    detectNalType [0, 0, 0, 1, 103, 66, 0, 0, 0, 1, 101, 170] = 5 := by
  refine ⟨?_, ?_, ?_, ?_⟩ <;> decide

/-- Mirrors PesAssembler. -/
structure PesAssembler where
  currentPes : List Nat
  videoPid : Option Nat
  collecting : Bool
  deriving DecidableEq, Repr

/-- Embedded Rust slice &l[i..]: defined exactly when i <= l.len(). -/
def sliceFrom (l : List Nat) (i : Nat) : Option (List Nat) :=
  if i ≤ l.length then some (l.drop i) else none

/-- Mirrors payload_offset; the only indexing, packet[4], is guarded by
packet.len() > 4. -/
def payloadOffset (packet : List Nat) (afc : Nat) : Option Nat :=
  if afc / 2 % 2 = 1 ∧ 4 < packet.length then
    (packet.get? 4).map (fun b => 5 + b)
  else some 4

/-- Mirrors the video-PID auto-detection block in push_ts_packet. -/
def autoDetect (st : PesAssembler) (packet : List Nat) (pid : Nat)
    (pusi hasPayload : Bool) (afc : Nat) : Option PesAssembler :=
  if st.videoPid = none ∧ pusi = true ∧ hasPayload = true then do
    let off ← payloadOffset packet afc
    if off + 4 ≤ 188 then do
      let p ← sliceFrom packet off
      if 4 ≤ p.length then do
        let p0 ← p.get? 0
        let p1 ← p.get? 1
        let p2 ← p.get? 2
        let p3 ← p.get? 3
        if p0 = 0 ∧ p1 = 0 ∧ p2 = 1 ∧ 224 ≤ p3 ∧ p3 ≤ 239 then
          pure { st with videoPid := some pid }
        else pure st
      else pure st
    else pure st
  else pure st

/-- Mirrors the PES-header parse on a pusi packet: require the 00 00 01
prefix and at least 9 bytes, read header_data_length at byte 8, and append
the ES bytes beginning at 9 + header_data_length when inside the payload. -/
def parsePesHeader (st : PesAssembler) (packet : List Nat) (off : Nat) :
    Option PesAssembler := do
  let payload ← sliceFrom packet off
  if 9 ≤ payload.length then do
    let q0 ← payload.get? 0
    let q1 ← payload.get? 1
    let q2 ← payload.get? 2
    if q0 = 0 ∧ q1 = 0 ∧ q2 = 1 then do
      let hdl ← payload.get? 8
      if 9 + hdl < payload.length then do
        let es ← sliceFrom payload (9 + hdl)
        pure { st with currentPes := st.currentPes ++ es, collecting := true }
      else
        pure { st with collecting := true }
    else pure st
  else pure st

/-- Mirrors PesAssembler::push_ts_packet.  Returns None only on an
out-of-bounds access; otherwise Some of (completed access unit, state). -/
def pushTsPacket (st : PesAssembler) (packet : List Nat) :
    Option (Option (List Nat) × PesAssembler) := do
  if packet.length < 188 then
    return (none, st)
  let b0 ← packet.get? 0
  if b0 ≠ 71 then
    return (none, st)
  let b1 ← packet.get? 1
  let b2 ← packet.get? 2
  let b3 ← packet.get? 3
  let pid := b1 % 32 * 256 + b2
  let pusi := decide (b1 / 64 % 2 = 1)
  let afc := b3 / 16 % 4
  let hasPayload := decide (afc % 2 = 1)
  if pid = 0 ∨ pid = 8191 then
    return (none, st)
  let st1 ← autoDetect st packet pid pusi hasPayload afc
  if ¬(st1.videoPid = some pid ∧ hasPayload = true) then
    return (none, st1)
  let off ← payloadOffset packet afc
  if 188 ≤ off then
    return (none, st1)
  if pusi then
    let emit := st1.collecting ∧ st1.currentPes ≠ []
    let completed := if emit then some st1.currentPes else none
    let st2 := if emit then { st1 with currentPes := [] } else st1
    let st3 ← parsePesHeader st2 packet off
    return (completed, st3)
  else if st1.collecting then do
    let pl ← sliceFrom packet off
    return (none, { st1 with currentPes := st1.currentPes ++ pl })
  else
    return (none, st1)

theorem get?_isSome_of_lt {l : List Nat} {i : Nat} (h : i < l.length) :
    ∃ v, l.get? i = some v := by
  induction l generalizing i with
  | nil => simp at h
  | cons x xs ih =>
    cases i with
    | zero => exact ⟨x, rfl⟩
    | succ j =>
      simp only [List.length_cons] at h
      exact ih (by omega)

theorem sliceFrom_eq_some {l : List Nat} {i : Nat} (h : i ≤ l.length) :
    sliceFrom l i = some (l.drop i) := by
  unfold sliceFrom
  exact if_pos h

theorem payloadOffset_isSome (packet : List Nat) (afc : Nat) :
    ∃ off, payloadOffset packet afc = some off := by
  unfold payloadOffset
  split
  · rename_i h
    obtain ⟨v, hv⟩ := get?_isSome_of_lt h.2
    exact ⟨5 + v, by rw [hv]; rfl⟩
  · exact ⟨4, rfl⟩

theorem autoDetect_isSome (st : PesAssembler) (packet : List Nat)
    (pid : Nat) (pusi hasPayload : Bool) (afc : Nat)
    (h188 : 188 ≤ packet.length) :
    ∃ st1, autoDetect st packet pid pusi hasPayload afc = some st1 := by
  unfold autoDetect
  split
  · obtain ⟨off, hoff⟩ := payloadOffset_isSome packet afc
    rw [hoff]
    simp only [Option.bind_eq_bind, Option.some_bind]
    split
    · rename_i hfit
      rw [sliceFrom_eq_some (by omega)]
      simp only [Option.some_bind]
      split
      · rename_i hp4
        obtain ⟨v0, h0⟩ :=
          get?_isSome_of_lt (l := packet.drop off) (i := 0) (by omega)
        obtain ⟨v1, h1⟩ :=
          get?_isSome_of_lt (l := packet.drop off) (i := 1) (by omega)
        obtain ⟨v2, h2⟩ :=
          get?_isSome_of_lt (l := packet.drop off) (i := 2) (by omega)
        obtain ⟨v3, h3⟩ :=
          get?_isSome_of_lt (l := packet.drop off) (i := 3) (by omega)
        rw [h0, h1, h2, h3]
        simp only [Option.some_bind]
        split
        · exact ⟨_, rfl⟩
        · exact ⟨st, rfl⟩
      · exact ⟨st, rfl⟩
    · exact ⟨st, rfl⟩
  · exact ⟨st, rfl⟩

theorem parsePesHeader_isSome (st : PesAssembler) (packet : List Nat)
    (off : Nat) (hoff : off ≤ packet.length) :
    ∃ st2, parsePesHeader st packet off = some st2 := by
  unfold parsePesHeader
  rw [sliceFrom_eq_some hoff]
  simp only [Option.bind_eq_bind, Option.some_bind]
  split
  · rename_i h9
    obtain ⟨v0, h0⟩ :=
      get?_isSome_of_lt (l := packet.drop off) (i := 0) (by omega)
    obtain ⟨v1, h1⟩ :=
      get?_isSome_of_lt (l := packet.drop off) (i := 1) (by omega)
    obtain ⟨v2, h2⟩ :=
      get?_isSome_of_lt (l := packet.drop off) (i := 2) (by omega)
    rw [h0, h1, h2]
    simp only [Option.some_bind]
    split
    · obtain ⟨v8, h8⟩ :=
        get?_isSome_of_lt (l := packet.drop off) (i := 8) (by omega)
      rw [h8]
      simp only [Option.some_bind]
      split
      · rename_i hes
        rw [sliceFrom_eq_some (by omega)]
        exact ⟨_, rfl⟩
      · exact ⟨_, rfl⟩
    · exact ⟨st, rfl⟩
  · exact ⟨st, rfl⟩

theorem isSome_bind {α β : Type} {o : Option α} {f : α → Option β}
    (h : ∃ v, o = some v) (hf : ∀ v, (f v).isSome = true) :
    (o >>= f).isSome = true := by
  obtain ⟨v, rfl⟩ := h
  exact hf v

/-- C10: push_ts_packet is total — for every state and every byte slice
(truncated packets, adaptation fields overflowing the packet, short PES
headers included) the embedding returns Some, i.e. no guarded index or
slice is ever out of bounds. -/
theorem c10_push_ts_packet_total (st : PesAssembler) (packet : List Nat) :
    (pushTsPacket st packet).isSome = true := by
  unfold pushTsPacket
  split
  · rfl
  · rename_i hlen
    have h188 : 188 ≤ packet.length := by omega
    simp only [pure_bind]
    refine isSome_bind (get?_isSome_of_lt (l := packet) (i := 0) (by omega))
      (fun b0 => ?_)
    split
    · rfl
    · refine isSome_bind (get?_isSome_of_lt (l := packet) (i := 1) (by omega))
        (fun b1 => ?_)
      refine isSome_bind (get?_isSome_of_lt (l := packet) (i := 2) (by omega))
        (fun b2 => ?_)
      refine isSome_bind (get?_isSome_of_lt (l := packet) (i := 3) (by omega))
        (fun b3 => ?_)
      split
      · rfl
      · refine isSome_bind (autoDetect_isSome st packet _ _ _ _ h188)
          (fun st1 => ?_)
        split
        · rfl
        · refine isSome_bind (payloadOffset_isSome packet _) (fun off => ?_)
          split
          · rfl
          · rename_i hofflt
            split
            · refine isSome_bind
                (parsePesHeader_isSome _ packet off (by omega))
                (fun st3 => ?_)
              rfl
            · split
              · refine isSome_bind
                  ⟨_, sliceFrom_eq_some (l := packet) (i := off) (by omega)⟩
                  (fun pl => ?_)
                rfl
              · rfl

/-! ### Object keys and timestamp parsing (recorder/keys.rs, storage.rs)

Strings are lists of ASCII codes (47 is the slash, 95 the underscore, 84
the letter T, 90 the letter Z, 45 the hyphen, 43 the plus, 48-57 digits).
The chrono calendar conversions used by fmt_ts / date_str
(DateTime::from_timestamp_millis and the %Y%m%dT%H%M%S%3f format) and by
parse_start_ms_from_key (NaiveDateTime::parse_from_str followed by
timestamp_millis) are modelled by an explicit proleptic-Gregorian
conversion over the 400-year cycle, with div_euclid / rem_euclid becoming
Int.ediv / Int.emod as in chrono.
-/

/-- ASCII digit test. -/
def isDigitCode (c : Nat) : Bool :=
  decide (48 ≤ c) && decide (c ≤ 57)

/-- Fixed-width zero-padded decimal rendering (the low w digits, as the
chrono zero-padded numeric format items print for in-range values). -/
def padNat : Nat → Nat → List Nat
  | 0, _ => []
  | w + 1, n => padNat w (n / 10) ++ [48 + n % 10]

/-- Decimal value of a digit string. -/
def parseDigits (l : List Nat) : Nat :=
  l.foldl (fun a c => a * 10 + (c - 48)) 0

theorem length_padNat (w n : Nat) : (padNat w n).length = w := by
  induction w generalizing n with
  | zero => rfl
  | succ w ih => simp [padNat, ih]

theorem mem_padNat_digit {w n c : Nat} (h : c ∈ padNat w n) :
    48 ≤ c ∧ c ≤ 57 := by
  induction w generalizing n with
  | zero => simp [padNat] at h
  | succ w ih =>
    simp only [padNat, List.mem_append, List.mem_singleton] at h
    rcases h with h | h
    · exact ih h
    · omega

theorem parseDigits_append_single (l : List Nat) (c : Nat) :
    parseDigits (l ++ [c]) = parseDigits l * 10 + (c - 48) := by
  simp [parseDigits, List.foldl_append]

theorem parseDigits_base (l : List Nat) (a : Nat)
    (hd : ∀ c ∈ l, 48 ≤ c ∧ c ≤ 57) :
    l.foldl (fun a c => a * 10 + (c - 48)) a =
      a * 10 ^ l.length + l.foldl (fun a c => a * 10 + (c - 48)) 0 := by
  induction l generalizing a with
  | nil => simp
  | cons x xs ih =>
    simp only [List.foldl_cons, List.length_cons]
    rw [ih (a * 10 + (x - 48)) (fun c hc => hd c (by simp [hc])),
      ih (0 * 10 + (x - 48)) (fun c hc => hd c (by simp [hc]))]
    ring

theorem parseDigits_padNat {w n : Nat} (h : n < 10 ^ w) :
    parseDigits (padNat w n) = n := by
  induction w generalizing n with
  | zero =>
    simp only [pow_zero] at h
    interval_cases n
    rfl
  | succ w ih =>
    rw [padNat, parseDigits_append_single, ih (by
      have : (10 : Nat) ^ (w + 1) = 10 ^ w * 10 := by ring
      rw [this] at h
      exact Nat.div_lt_of_lt_mul (by omega))]
    omega

theorem takeWhile_append_all {p : Nat → Bool} {A r : List Nat}
    (hA : ∀ x ∈ A, p x = true) :
    (A ++ r).takeWhile p = A ++ r.takeWhile p := by
  induction A with
  | nil => rfl
  | cons a t ih =>
    simp only [List.cons_append, List.takeWhile_cons,
      hA a (by simp), ih (fun x hx => hA x (by simp [hx]))]
    simp

theorem takeWhile_append_stop {p : Nat → Bool} {A : List Nat} {b : Nat}
    {r : List Nat} (hA : ∀ x ∈ A, p x = true) (hb : p b = false) :
    (A ++ b :: r).takeWhile p = A := by
  induction A with
  | nil => simp [List.takeWhile_cons, hb]
  | cons a t ih =>
    simp only [List.cons_append, List.takeWhile_cons, hA a (by simp),
      ih (fun x hx => hA x (by simp [hx]))]
    simp

theorem takeWhile_all {p : Nat → Bool} {A : List Nat}
    (hA : ∀ x ∈ A, p x = true) : A.takeWhile p = A := by
  have := takeWhile_append_all (r := []) hA
  simpa using this

/-! Proleptic-Gregorian calendar over the 400-year cycle (146097 days),
modelling chrono's conversions.  Years inside an era are counted from
March (month shift mp = 0 is March), so the leap day sits at the end of a
shifted year. -/

/-- Gregorian leap-year test on a cycle-relative year number. -/
def leap400 (n : Nat) : Bool :=
  (decide (n % 4 = 0) && decide (n % 100 ≠ 0)) || decide (n % 400 = 0)

/-- Gregorian leap-year test on a calendar year. -/
def isLeapY (y : Int) : Bool :=
  (decide (y % 4 = 0) && decide (y % 100 ≠ 0)) || decide (y % 400 = 0)

/-- Day number (within an era) on which shifted year y starts: 365 days
per year plus one leap day for every shifted year before y whose following
calendar year is leap. -/
def dstart (y : Nat) : Nat :=
  365 * y + y / 4 - y / 100 + y / 400

/-- Day (within a shifted year) on which shifted month mp starts
(mp = 0 is March, mp = 11 is February). -/
def mstart : Nat → Nat
  | 0 => 0
  | 1 => 31
  | 2 => 61
  | 3 => 92
  | 4 => 122
  | 5 => 153
  | 6 => 184
  | 7 => 214
  | 8 => 245
  | 9 => 275
  | 10 => 306
  | 11 => 337
  | _ => 366

/-- Calendar month corresponding to shifted month mp. -/
def monthOf (mp : Nat) : Nat :=
  if mp < 10 then mp + 3 else mp - 9

/-- Days in a calendar month, by leap flag. -/
def daysInMonth (leap : Bool) : Nat → Nat
  | 1 => 31
  | 2 => if leap then 29 else 28
  | 3 => 31
  | 4 => 30
  | 5 => 31
  | 6 => 30
  | 7 => 31
  | 8 => 31
  | 9 => 30
  | 10 => 31
  | 11 => 30
  | 12 => 31
  | _ => 0

/-- Largest j <= b with f j <= x (linear search from b down; f 0 = 0 in
both uses, so 0 is always admissible). -/
def lastLE (f : Nat → Nat) (x : Nat) : Nat → Nat
  | 0 => 0
  | b + 1 => if f (b + 1) ≤ x then b + 1 else lastLE f x b

theorem lastLE_le (f : Nat → Nat) (x b : Nat) : lastLE f x b ≤ b := by
  induction b with
  | zero => simp [lastLE]
  | succ b ih =>
    rw [lastLE]
    split
    · omega
    · omega

theorem lastLE_start_le (f : Nat → Nat) (x b : Nat) (h0 : f 0 = 0) :
    f (lastLE f x b) ≤ x := by
  induction b with
  | zero => simp [lastLE, h0]
  | succ b ih =>
    rw [lastLE]
    split
    · assumption
    · exact ih

theorem lastLE_max (f : Nat → Nat) (x b j : Nat) (hj : j ≤ b)
    (hfj : f j ≤ x) : j ≤ lastLE f x b := by
  induction b with
  | zero => omega
  | succ b ih =>
    rw [lastLE]
    split
    · omega
    · rename_i hfb
      have hjb : j ≤ b := by
        by_contra hc
        have hjeq : j = b + 1 := by omega
        rw [hjeq] at hfj
        exact hfb hfj
      exact ih hjb

def yoeOf (doe : Nat) : Nat := lastLE dstart doe 399

def mpOf (doy : Nat) : Nat := lastLE mstart doy 11

theorem range_all_imp {f : Nat → Bool} {n : Nat}
    (h : (List.range n).all f = true) : ∀ i, i < n → f i = true :=
  fun i hi => List.all_eq_true.mp h i (List.mem_range.mpr hi)

/-- Per shifted year inside an era: the year spans 365 days plus the leap
day exactly when the following calendar year is leap. -/
def yearLenOk (y : Nat) : Bool :=
  decide (dstart y ≤ dstart (y + 1)) &&
    decide (dstart (y + 1) - dstart y =
      if leap400 (y + 1) then 366 else 365)

set_option maxRecDepth 4000 in
theorem yearLen_all : (List.range 400).all yearLenOk = true := by decide

theorem dstart_400 : dstart 400 = 146097 := by decide

/-- Per shifted month: table monotone, months below February map to the
fixed-length calendar months, and the shifted-month / calendar-month maps
invert each other. -/
def monthOk (mp : Nat) : Bool :=
  decide (mstart mp ≤ mstart (mp + 1)) &&
    decide (1 ≤ monthOf mp ∧ monthOf mp ≤ 12) &&
    decide ((if 2 < monthOf mp then monthOf mp - 3 else monthOf mp + 9) = mp) &&
    ((decide (monthOf mp ≤ 2)) == (decide (10 ≤ mp))) &&
    (decide (10 ≤ mp) ||
      (decide (mstart (mp + 1) - mstart mp = daysInMonth false (monthOf mp)) &&
       decide (mstart (mp + 1) - mstart mp = daysInMonth true (monthOf mp))))

theorem month_all : (List.range 12).all monthOk = true := by decide

/-- Calendar date; mirrors the (year, month, day) triple chrono formats. -/
structure CivilDate where
  year : Int
  month : Nat
  day : Nat
  deriving DecidableEq, Repr

/-- Date determined by an era number and a day-of-era below 146097. -/
def civilOfEraDoe (era : Int) (doe : Nat) : CivilDate :=
  let yoe := yoeOf doe
  let doy := doe - dstart yoe
  let mp := mpOf doy
  let d := doy - mstart mp + 1
  let m := monthOf mp
  ⟨era * 400 + yoe + (if m ≤ 2 then 1 else 0), m, d⟩

/-- Date of a day count relative to 1970-01-01 (chrono's
from_timestamp_millis date part, via the 400-year cycle; 719468 days
separate 0000-03-01 from 1970-01-01). -/
def civilFromDays (z : Int) : CivilDate :=
  civilOfEraDoe ((z + 719468) / 146097) (((z + 719468) % 146097).toNat)

/-- Day count relative to 1970-01-01 of a calendar date (chrono's
timestamp_millis date part). -/
def daysFromCivil (y : Int) (m d : Nat) : Int :=
  let y2 := y - (if m ≤ 2 then 1 else 0)
  let era := y2 / 400
  let yoe := (y2 - 400 * era).toNat
  let mp := if 2 < m then m - 3 else m + 9
  let doe := dstart yoe + mstart mp + (d - 1)
  era * 146097 + (doe : Int) - 719468

theorem leap_transfer (era : Int) (k : Nat) :
    isLeapY (era * 400 + (k : Int)) = leap400 k := by
  have h4 : (era * 400 + (k : Int)) % 4 = 0 ↔ k % 4 = 0 := by omega
  have h100 : (era * 400 + (k : Int)) % 100 = 0 ↔ k % 100 = 0 := by omega
  have h400 : (era * 400 + (k : Int)) % 400 = 0 ↔ k % 400 = 0 := by omega
  simp only [isLeapY, leap400]
  rw [decide_eq_decide.mpr h4, decide_eq_decide.mpr h400,
    decide_eq_decide.mpr (not_congr h100)]

theorem yoeOf_le (doe : Nat) : yoeOf doe ≤ 399 :=
  lastLE_le dstart doe 399

theorem yoeOf_start_le (doe : Nat) : dstart (yoeOf doe) ≤ doe :=
  lastLE_start_le dstart doe 399 rfl

theorem yoeOf_lt (doe : Nat) (h : doe < 146097) :
    doe < dstart (yoeOf doe + 1) := by
  by_contra hc
  push_neg at hc
  rcases Nat.lt_or_ge (yoeOf doe) 399 with hy | hy
  · have hmax := lastLE_max dstart doe 399 (yoeOf doe + 1) (by
      have := yoeOf_le doe
      omega) hc
    have heq : lastLE dstart doe 399 = yoeOf doe := rfl
    omega
  · have h399 : yoeOf doe = 399 := by
      have := yoeOf_le doe
      omega
    rw [h399, dstart_400] at hc
    omega

theorem mpOf_le (doy : Nat) : mpOf doy ≤ 11 :=
  lastLE_le mstart doy 11

theorem mpOf_start_le (doy : Nat) : mstart (mpOf doy) ≤ doy :=
  lastLE_start_le mstart doy 11 rfl

theorem mpOf_lt (doy : Nat) (h : doy ≤ 365) :
    doy < mstart (mpOf doy + 1) := by
  by_contra hc
  push_neg at hc
  rcases Nat.lt_or_ge (mpOf doy) 11 with hm | hm
  · have hmax := lastLE_max mstart doy 11 (mpOf doy + 1) (by
      have := mpOf_le doy
      omega) hc
    have heq : lastLE mstart doy 11 = mpOf doy := rfl
    omega
  · have h11 : mpOf doy = 11 := by
      have := mpOf_le doy
      omega
    rw [h11] at hc
    have h12 : mstart (11 + 1) = 366 := rfl
    omega

/-- Round trip and validity on one era: daysFromCivil recovers
era * 146097 + doe - 719468 from the date of (era, doe), the month is in
1..12 and the day fits the month, leap years included. -/
theorem civil_core (era : Int) (doe : Nat) (hdoe : doe < 146097) :
    daysFromCivil (civilOfEraDoe era doe).year (civilOfEraDoe era doe).month
        (civilOfEraDoe era doe).day = era * 146097 + (doe : Int) - 719468 ∧
      1 ≤ (civilOfEraDoe era doe).month ∧
      (civilOfEraDoe era doe).month ≤ 12 ∧
      1 ≤ (civilOfEraDoe era doe).day ∧
      (civilOfEraDoe era doe).day ≤
        daysInMonth (isLeapY (civilOfEraDoe era doe).year)
          (civilOfEraDoe era doe).month := by
  have hys := yoeOf_start_le doe
  have hyoe_le := yoeOf_le doe
  have hylt := yoeOf_lt doe hdoe
  have hyok := range_all_imp yearLen_all (yoeOf doe) (by omega)
  simp only [yearLenOk, Bool.and_eq_true, decide_eq_true_eq] at hyok
  obtain ⟨hymono, hylen⟩ := hyok
  have hdoy365 : doe - dstart (yoeOf doe) ≤ 365 := by
    rcases Bool.eq_false_or_eq_true (leap400 (yoeOf doe + 1)) with hl | hl <;>
      simp only [hl] at hylen <;> simp at hylen <;> omega
  have hms := mpOf_start_le (doe - dstart (yoeOf doe))
  have hmp_le := mpOf_le (doe - dstart (yoeOf doe))
  have hmlt := mpOf_lt (doe - dstart (yoeOf doe)) hdoy365
  have hmok := range_all_imp month_all (mpOf (doe - dstart (yoeOf doe)))
    (by omega)
  simp only [monthOk, Bool.and_eq_true, Bool.or_eq_true, decide_eq_true_eq,
    beq_iff_eq] at hmok
  obtain ⟨⟨⟨⟨hmmono, hm1, hm12⟩, hminv⟩, hmadj⟩, hmlen⟩ := hmok
  have hcd : civilOfEraDoe era doe =
      ⟨era * 400 + (yoeOf doe) +
         (if monthOf (mpOf (doe - dstart (yoeOf doe))) ≤ 2 then 1 else 0),
       monthOf (mpOf (doe - dstart (yoeOf doe))),
       doe - dstart (yoeOf doe) - mstart (mpOf (doe - dstart (yoeOf doe))) + 1⟩ :=
    rfl
  rw [hcd]
  dsimp only
  refine ⟨?_, hm1, hm12, by omega, ?_⟩
  · -- inverse computation
    unfold daysFromCivil
    dsimp only
    have hy2 : era * 400 + (yoeOf doe : Int) +
        (if monthOf (mpOf (doe - dstart (yoeOf doe))) ≤ 2 then 1 else 0) -
        (if monthOf (mpOf (doe - dstart (yoeOf doe))) ≤ 2 then 1 else 0) =
        era * 400 + (yoeOf doe : Int) := by
      ring
    rw [hy2]
    have hera2 : (era * 400 + (yoeOf doe : Int)) / 400 = era := by
      rw [show era * 400 + (yoeOf doe : Int) =
        (yoeOf doe : Int) + 400 * era by ring]
      rw [Int.add_mul_ediv_left (yoeOf doe : Int) era (by omega)]
      rw [Int.ediv_eq_zero_of_lt (by omega) (by omega)]
      omega
    rw [hera2]
    have hyoe2 : (era * 400 + (yoeOf doe : Int) - 400 * era).toNat =
        yoeOf doe := by
      omega
    rw [hyoe2, hminv]
    have hdoe2 : dstart (yoeOf doe) + mstart (mpOf (doe - dstart (yoeOf doe))) +
        (doe - dstart (yoeOf doe) - mstart (mpOf (doe - dstart (yoeOf doe)))
          + 1 - 1) = doe := by
      omega
    rw [hdoe2]
  · -- day validity
    rcases Nat.lt_or_ge (mpOf (doe - dstart (yoeOf doe))) 10 with hmp10 | hmp10
    · -- months March..December: fixed length independent of leapness
      have hlen := hmlen.resolve_left (by omega)
      rcases Bool.eq_false_or_eq_true (isLeapY (era * 400 + (yoeOf doe) +
          (if monthOf (mpOf (doe - dstart (yoeOf doe))) ≤ 2 then 1 else 0)))
        with hb | hb <;> rw [hb]
      · rw [← hlen.2]
        omega
      · rw [← hlen.1]
        omega
    · rcases Nat.lt_or_ge (mpOf (doe - dstart (yoeOf doe))) 11 with hmp11 | hmp11
      · -- mp = 10 is January, 31 days for any leap flag
        have h10 : mpOf (doe - dstart (yoeOf doe)) = 10 := by omega
        rw [h10]
        rw [h10] at hms hmlt
        have hm10 : monthOf 10 = 1 := rfl
        have hms10 : mstart 10 = 306 := rfl
        have hms11 : mstart (10 + 1) = 337 := rfl
        rw [hm10]
        have h31 : ∀ b, daysInMonth b 1 = 31 := by
          intro b
          cases b <;> rfl
        rw [h31]
        omega
      · -- mp = 11 is February, 28 or 29 days
        have h11 : mpOf (doe - dstart (yoeOf doe)) = 11 := by omega
        rw [h11]
        rw [h11] at hms hmlt
        have hm11 : monthOf 11 = 2 := rfl
        have hms337 : mstart 11 = 337 := rfl
        rw [hm11]
        rcases Nat.lt_or_ge (doe - dstart (yoeOf doe)) 365 with hd364 | hd365
        · -- day at most 28, valid in any year
          have h28 : ∀ b, 28 ≤ daysInMonth b 2 := by
            intro b
            cases b <;> simp [daysInMonth]
          have hle : doe - dstart (yoeOf doe) - mstart 11 + 1 ≤ 28 := by
            have hm12' : mstart (11 + 1) = 366 := rfl
            omega
          exact le_trans hle (h28 _)
        · -- day 365 of the shifted year is February 29 of a leap year
          have hdoyeq : doe - dstart (yoeOf doe) = 365 := by omega
          have hleap : leap400 (yoeOf doe + 1) = true := by
            by_contra hc
            rw [Bool.not_eq_true] at hc
            simp only [hc] at hylen
            simp at hylen
            omega
          rw [show (if (2 : Nat) ≤ 2 then (1 : Int) else 0) = 1 from rfl]
          have ht : isLeapY (era * 400 + (yoeOf doe : Int) + 1) =
              leap400 (yoeOf doe + 1) := by
            rw [show era * 400 + (yoeOf doe : Int) + 1 =
              era * 400 + ((yoeOf doe + 1 : Nat) : Int) by push_cast; ring]
            exact leap_transfer era _
          rw [ht, hleap]
          have h29 : daysInMonth true 2 = 29 := rfl
          rw [h29]
          omega

/-- Round trip of the full calendar conversion together with validity of
the produced date. -/
theorem civil_inverse (z : Int) :
    daysFromCivil (civilFromDays z).year (civilFromDays z).month
        (civilFromDays z).day = z ∧
      1 ≤ (civilFromDays z).month ∧ (civilFromDays z).month ≤ 12 ∧
      1 ≤ (civilFromDays z).day ∧
      (civilFromDays z).day ≤
        daysInMonth (isLeapY (civilFromDays z).year) (civilFromDays z).month := by
  have hnn : 0 ≤ (z + 719468) % 146097 :=
    Int.emod_nonneg (z + 719468) (by omega)
  have hlt : (z + 719468) % 146097 < 146097 :=
    Int.emod_lt_of_pos (z + 719468) (by omega)
  have hcore := civil_core ((z + 719468) / 146097)
    (((z + 719468) % 146097).toNat) (by omega)
  have hz : (z + 719468) / 146097 * 146097 +
      ((((z + 719468) % 146097).toNat : Nat) : Int) - 719468 = z := by
    have := Int.ediv_add_emod (z + 719468) 146097
    omega
  unfold civilFromDays
  rw [hz] at hcore
  exact hcore

/-- Decimal digit count, fuel-driven. -/
def natDigitsLen : Nat → Nat → Nat
  | 0, _ => 1
  | fuel + 1, n => if n < 10 then 1 else 1 + natDigitsLen fuel (n / 10)

/-- Chrono %Y rendering: years 0..9999 print as exactly four digits; other
years print with a leading sign (and at least four digits).  Only the
four-digit branch is exercised by keys whose start year is in range; the
signed branches matter solely through their character set (digits and
sign marks, never a slash or an underscore). -/
def fmtYear (y : Int) : List Nat :=
  if 0 ≤ y ∧ y < 10000 then padNat 4 y.toNat
  else if y < 0 then
    45 :: padNat (max 4 (natDigitsLen (-y).toNat (-y).toNat)) (-y).toNat
  else
    43 :: padNat (max 4 (natDigitsLen y.toNat y.toNat)) y.toNat

/-- Body of the %Y%m%dT%H%M%S%3f timestamp rendering of fmt_ts (keys.rs)
for a Unix-millisecond value, without the trailing Z. -/
def fmtBody (ms : Int) : List Nat :=
  fmtYear (civilFromDays (ms / 86400000)).year ++
  (padNat 2 (civilFromDays (ms / 86400000)).month ++
  (padNat 2 (civilFromDays (ms / 86400000)).day ++
  (84 :: (padNat 2 ((ms % 86400000).toNat / 3600000) ++
  (padNat 2 ((ms % 86400000).toNat % 3600000 / 60000) ++
  (padNat 2 ((ms % 86400000).toNat % 60000 / 1000) ++
  padNat 3 ((ms % 86400000).toNat % 1000)))))))

/-- Mirrors fmt_ts in recorder/keys.rs: format %Y%m%dT%H%M%S%3fZ. -/
def fmtTs (ms : Int) : List Nat :=
  fmtBody ms ++ [90]

/-- Mirrors date_str in recorder/keys.rs: format %Y-%m-%d. -/
def dateStr (ms : Int) : List Nat :=
  fmtYear (civilFromDays (ms / 86400000)).year ++
  (45 :: (padNat 2 (civilFromDays (ms / 86400000)).month ++
  (45 :: padNat 2 (civilFromDays (ms / 86400000)).day)))

/-- ASCII of the literal path segment "/camera/". -/
def cameraSeg : List Nat :=
  [47, 99, 97, 109, 101, 114, 97, 47]

/-- Mirrors idle_jpeg_key:
prefix robot "/camera/" date "/" fmt(start) "_" fmt(end) ".jpg". -/
def idle_jpeg_key (pfx robot : List Nat) (startMs endMs : Int) : List Nat :=
  pfx ++ robot ++ cameraSeg ++ dateStr startMs ++
    (47 :: (fmtTs startMs ++ (95 :: (fmtTs endMs ++ [46, 106, 112, 103]))))

/-- Mirrors active_segment_key:
prefix robot "/camera/" date "/" fmt(start) "_" fmt(end) ".mp4". -/
def active_segment_key (pfx robot : List Nat) (startMs endMs : Int) :
    List Nat :=
  pfx ++ robot ++ cameraSeg ++ dateStr startMs ++
    (47 :: (fmtTs startMs ++ (95 :: (fmtTs endMs ++ [46, 109, 112, 52]))))

/-- Mirrors str::rsplit(c).next(): the suffix after the last c (the whole
string when c does not occur). -/
def rsplitNext (c : Nat) (s : List Nat) : List Nat :=
  (s.reverse.takeWhile (fun x => decide (x ≠ c))).reverse

/-- Mirrors str::split(c).next(): the part before the first c. -/
def splitNext (c : Nat) (s : List Nat) : List Nat :=
  s.takeWhile (fun x => decide (x ≠ c))

/-- Mirrors str::trim_end_matches('Z'). -/
def trimEndZ (s : List Nat) : List Nat :=
  (s.reverse.dropWhile (fun x => decide (x = 90))).reverse

/-- Mirrors chrono's numeric-field scanner on unsigned input: consume
between one and maxd leading digits greedily, returning the value and the
remaining input. -/
def scanNumber (maxd : Nat) (s : List Nat) : Option (Nat × List Nat) :=
  let ds := (s.takeWhile isDigitCode).take maxd
  if ds.isEmpty then none
  else some (parseDigits ds, s.drop ds.length)

/-- Mirrors NaiveDateTime::parse_from_str(clean, %Y%m%dT%H%M%S%3f)
followed by and_utc().timestamp_millis(): four numeric fields of widths
4, 2, 2, the literal T, three fields of width 2, then exactly three
fractional-millisecond digits consuming the rest of the input; the parsed
date and time must be a valid calendar date (leap years included) and a
valid time of day. -/
def parseNaiveTs (s : List Nat) : Option Int :=
  match scanNumber 4 s with
  | none => none
  | some (y, r1) =>
    match scanNumber 2 r1 with
    | none => none
    | some (mo, r2) =>
      match scanNumber 2 r2 with
      | none => none
      | some (da, r3) =>
        match r3 with
        | [] => none
        | t :: r4 =>
          if ¬ (t = 84) then none else
          match scanNumber 2 r4 with
          | none => none
          | some (h, r5) =>
            match scanNumber 2 r5 with
            | none => none
            | some (mi, r6) =>
              match scanNumber 2 r6 with
              | none => none
              | some (se, r7) =>
                if r7.length = 3 ∧ r7.all isDigitCode then
                  if 1 ≤ mo ∧ mo ≤ 12 ∧ 1 ≤ da ∧
                      da ≤ daysInMonth (isLeapY (y : Int)) mo ∧
                      h ≤ 23 ∧ mi ≤ 59 ∧ se ≤ 59 then
                    some (daysFromCivil (y : Int) mo da * 86400000 +
                      ((h * 3600000 + mi * 60000 + se * 1000 +
                        parseDigits r7 : Nat) : Int))
                  else none
                else none

/-- Mirrors parse_start_ms_from_key in storage.rs. -/
def parse_start_ms_from_key (key : List Nat) : Option Int :=
  let filename := rsplitNext 47 key
  let startPart := splitNext 95 filename
  let clean := trimEndZ startPart
  if clean.length < 18 then none
  else parseNaiveTs clean

theorem fmtYear_chars {y : Int} {c : Nat} (h : c ∈ fmtYear y) :
    (48 ≤ c ∧ c ≤ 57) ∨ c = 43 ∨ c = 45 := by
  unfold fmtYear at h
  split at h
  · exact Or.inl (mem_padNat_digit h)
  · split at h
    · rcases List.mem_cons.mp h with h | h
      · omega
      · exact Or.inl (mem_padNat_digit h)
    · rcases List.mem_cons.mp h with h | h
      · omega
      · exact Or.inl (mem_padNat_digit h)

theorem fmtTs_chars {ms : Int} {c : Nat} (h : c ∈ fmtTs ms) :
    (48 ≤ c ∧ c ≤ 57) ∨ c = 84 ∨ c = 90 ∨ c = 43 ∨ c = 45 := by
  unfold fmtTs fmtBody at h
  simp only [List.mem_append, List.mem_cons, List.mem_singleton] at h
  rcases h with (h | h | h | h | h | h | h | h) | h
  · rcases fmtYear_chars h with h | h | h
    · exact Or.inl h
    · omega
    · omega
  · exact Or.inl (mem_padNat_digit h)
  · exact Or.inl (mem_padNat_digit h)
  · omega
  · exact Or.inl (mem_padNat_digit h)
  · exact Or.inl (mem_padNat_digit h)
  · exact Or.inl (mem_padNat_digit h)
  · exact Or.inl (mem_padNat_digit h)
  · simp at h
    omega

theorem fmtTs_no_slash {ms : Int} {c : Nat} (h : c ∈ fmtTs ms) : c ≠ 47 := by
  rcases fmtTs_chars h with h | h | h | h | h <;> omega

theorem fmtTs_no_underscore {ms : Int} {c : Nat} (h : c ∈ fmtTs ms) :
    c ≠ 95 := by
  rcases fmtTs_chars h with h | h | h | h | h <;> omega

theorem rsplitNext_last (A F : List Nat) (hF : ∀ x ∈ F, x ≠ 47) :
    rsplitNext 47 (A ++ 47 :: F) = F := by
  unfold rsplitNext
  rw [List.reverse_append, List.reverse_cons, List.append_assoc,
    List.singleton_append]
  rw [takeWhile_append_stop (p := fun x => decide (x ≠ 47))
    (fun x hx => by simpa using hF x (List.mem_reverse.mp hx)) (by simp)]
  exact List.reverse_reverse F

theorem splitNext_first (A : List Nat) (r : List Nat)
    (hA : ∀ x ∈ A, x ≠ 95) : splitNext 95 (A ++ 95 :: r) = A := by
  unfold splitNext
  exact takeWhile_append_stop (fun x hx => by simpa using hA x hx) (by simp)

theorem trimZ_last (l : List Nat) (c : Nat) (hcl : l.getLast? = some c)
    (hc : ¬(c = 90)) : trimEndZ (l ++ [90]) = l := by
  unfold trimEndZ
  rw [List.reverse_append]
  simp only [List.reverse_singleton, List.singleton_append]
  rw [List.dropWhile_cons_of_pos (by simp)]
  rw [← List.head?_reverse] at hcl
  cases hrev : l.reverse with
  | nil =>
    rw [hrev] at hcl
    simp at hcl
  | cons a t =>
    rw [hrev] at hcl
    have ha : a = c := by
      simpa using hcl
    rw [List.dropWhile_cons_of_neg (by simp [ha, hc]), ← hrev,
      List.reverse_reverse]

theorem getLast?_append_ne {l₂ : List Nat} {c : Nat} (l₁ : List Nat)
    (h : l₂.getLast? = some c) : (l₁ ++ l₂).getLast? = some c := by
  rw [List.getLast?_append_of_ne_nil]
  · exact h
  · intro hnil
    rw [hnil] at h
    cases h

theorem getLast?_cons_ne {l : List Nat} {c : Nat} (a : Nat)
    (h : l.getLast? = some c) : (a :: l).getLast? = some c :=
  getLast?_append_ne [a] h

theorem fmtBody_getLast (ms : Int) :
    (fmtBody ms).getLast? =
      some (48 + (ms % 86400000).toNat % 1000 % 10) := by
  unfold fmtBody
  have h0 : ([48 + (ms % 86400000).toNat % 1000 % 10] : List Nat).getLast? =
      some (48 + (ms % 86400000).toNat % 1000 % 10) := rfl
  have hinner : (padNat 3 ((ms % 86400000).toNat % 1000)).getLast? =
      some (48 + (ms % 86400000).toNat % 1000 % 10) := by
    have hsp : padNat 3 ((ms % 86400000).toNat % 1000) =
        padNat 2 ((ms % 86400000).toNat % 1000 / 10) ++
          [48 + (ms % 86400000).toNat % 1000 % 10] := rfl
    rw [hsp]
    exact getLast?_append_ne _ h0
  exact getLast?_append_ne _ (getLast?_append_ne _ (getLast?_append_ne _
    (getLast?_cons_ne 84 (getLast?_append_ne _ (getLast?_append_ne _
      (getLast?_append_ne _ hinner))))))

theorem scanNumber_exact {w v : Nat} (rest : List Nat) (hw : 0 < w)
    (hv : v < 10 ^ w) :
    scanNumber w (padNat w v ++ rest) = some (v, rest) := by
  unfold scanNumber
  have hdig : ∀ x ∈ padNat w v, isDigitCode x = true := by
    intro x hx
    have := mem_padNat_digit hx
    simp [isDigitCode]
    omega
  rw [takeWhile_append_all hdig]
  have htake : (padNat w v ++ rest.takeWhile isDigitCode).take w =
      padNat w v := take_len_append (length_padNat w v)
  rw [htake]
  have hne : (padNat w v).isEmpty = false := by
    have := length_padNat w v
    cases hpn : padNat w v with
    | nil =>
      rw [hpn] at this
      simp at this
      omega
    | cons a t => rfl
  dsimp only
  rw [hne]
  simp only [Bool.false_eq_true, if_false]
  rw [parseDigits_padNat hv, length_padNat,
    drop_len_append (length_padNat w v)]

theorem scanNumber_exact4 {v : Nat} (rest : List Nat) (hv : v < 10000) :
    scanNumber 4 (padNat 4 v ++ rest) = some (v, rest) :=
  scanNumber_exact rest (by omega)
    (by
      have h : (10 : Nat) ^ 4 = 10000 := by norm_num
      omega)

theorem scanNumber_exact2 {v : Nat} (rest : List Nat) (hv : v < 100) :
    scanNumber 2 (padNat 2 v ++ rest) = some (v, rest) :=
  scanNumber_exact rest (by omega)
    (by
      have h : (10 : Nat) ^ 2 = 100 := by norm_num
      omega)

theorem padNat_all_digits (w v : Nat) :
    (padNat w v).all isDigitCode = true := by
  rw [List.all_eq_true]
  intro x hx
  have h := mem_padNat_digit hx
  simp only [isDigitCode, Bool.and_eq_true, decide_eq_true_eq]
  omega

theorem daysInMonth_le_31 (b : Bool) (m : Nat) : daysInMonth b m ≤ 31 := by
  unfold daysInMonth
  split <;> (try split) <;> omega

theorem parseNaiveTs_fields (y mo da hh mi ss msec : Nat)
    (hy : y < 10000) (hmo : mo < 100) (hda : da < 100) (hhh : hh < 100)
    (hmi : mi < 100) (hss : ss < 100) (hms : msec < 1000)
    (hval : 1 ≤ mo ∧ mo ≤ 12 ∧ 1 ≤ da ∧
      da ≤ daysInMonth (isLeapY (y : Int)) mo ∧
      hh ≤ 23 ∧ mi ≤ 59 ∧ ss ≤ 59) :
    parseNaiveTs (padNat 4 y ++ (padNat 2 mo ++ (padNat 2 da ++
        (84 :: (padNat 2 hh ++ (padNat 2 mi ++
          (padNat 2 ss ++ padNat 3 msec))))))) =
      some (daysFromCivil (y : Int) mo da * 86400000 +
        ((hh * 3600000 + mi * 60000 + ss * 1000 + msec : Nat) : Int)) := by
  unfold parseNaiveTs
  rw [scanNumber_exact4 _ hy]
  dsimp only
  rw [scanNumber_exact2 _ hmo]
  dsimp only
  rw [scanNumber_exact2 _ hda]
  dsimp only
  rw [if_neg (by omega : ¬¬((84 : Nat) = 84))]
  rw [scanNumber_exact2 _ hhh]
  dsimp only
  rw [scanNumber_exact2 _ hmi]
  dsimp only
  rw [scanNumber_exact2 _ hss]
  dsimp only
  rw [if_pos ⟨length_padNat 3 msec, padNat_all_digits 3 msec⟩]
  rw [if_pos hval]
  rw [parseDigits_padNat (by
    have h : (10 : Nat) ^ 3 = 1000 := by norm_num
    omega)]

theorem fmtBody_length (ms : Int)
    (hy : 0 ≤ (civilFromDays (ms / 86400000)).year ∧
      (civilFromDays (ms / 86400000)).year < 10000) :
    (fmtBody ms).length = 18 := by
  unfold fmtBody fmtYear
  rw [if_pos hy]
  simp [length_padNat]

theorem parseNaiveTs_fmtBody (ms : Int)
    (hy0 : 0 ≤ (civilFromDays (ms / 86400000)).year)
    (hy1 : (civilFromDays (ms / 86400000)).year < 10000) :
    parseNaiveTs (fmtBody ms) = some ms := by
  obtain ⟨hdf, hm1, hm2, hd1, hd2⟩ := civil_inverse (ms / 86400000)
  have htod0 : 0 ≤ ms % 86400000 := Int.emod_nonneg ms (by omega)
  have htodlt : ms % 86400000 < 86400000 := Int.emod_lt_of_pos ms (by omega)
  have hyc : (((civilFromDays (ms / 86400000)).year.toNat : Nat) : Int) =
      (civilFromDays (ms / 86400000)).year := Int.toNat_of_nonneg hy0
  have hdm31 := daysInMonth_le_31
    (isLeapY (civilFromDays (ms / 86400000)).year)
    (civilFromDays (ms / 86400000)).month
  unfold fmtBody fmtYear
  rw [if_pos ⟨hy0, hy1⟩]
  rw [parseNaiveTs_fields _ _ _ _ _ _ _ (by omega) (by omega) (by omega)
    (by omega) (by omega) (by omega) (by omega)
    ⟨hm1, hm2, hd1, by rw [hyc]; exact hd2, by omega, by omega, by omega⟩]
  rw [hyc, hdf]
  congr 1
  omega

theorem parse_key_shape (P : List Nat) (startMs : Int) (R : List Nat)
    (hR : ∀ x ∈ R, x ≠ 47)
    (hy0 : 0 ≤ (civilFromDays (startMs / 86400000)).year)
    (hy1 : (civilFromDays (startMs / 86400000)).year < 10000) :
    parse_start_ms_from_key
        (P ++ (47 :: (fmtTs startMs ++ (95 :: R)))) = some startMs := by
  unfold parse_start_ms_from_key
  dsimp only
  have hF : ∀ x ∈ fmtTs startMs ++ (95 :: R), x ≠ 47 := by
    intro x hx
    rcases List.mem_append.mp hx with hx | hx
    · exact fmtTs_no_slash hx
    · rcases List.mem_cons.mp hx with hx | hx
      · omega
      · exact hR x hx
  rw [rsplitNext_last P _ hF]
  rw [splitNext_first _ R (fun x hx => fmtTs_no_underscore hx)]
  have htrim : trimEndZ (fmtTs startMs) = fmtBody startMs := by
    unfold fmtTs
    exact trimZ_last _ _ (fmtBody_getLast startMs) (by omega)
  rw [htrim]
  rw [fmtBody_length startMs ⟨hy0, hy1⟩]
  rw [if_neg (by omega : ¬(18 < 18))]
  exact parseNaiveTs_fmtBody startMs hy0 hy1

/-- C5: for every start_ms whose UTC calendar date falls in the four-digit
year range 0..9999 printed by the %Y item (the "representable" dates of
the fixed-width YYYYMMDD key layout), any end_ms, any robot id and any
prefix, parsing the start timestamp back out of the generated object key
returns exactly start_ms, both for idle_jpeg_key and for
active_segment_key. -/
theorem c5_key_roundtrip (pfx robot : List Nat) (startMs endMs : Int)
    (hy0 : 0 ≤ (civilFromDays (startMs / 86400000)).year)
    (hy1 : (civilFromDays (startMs / 86400000)).year ≤ 9999) :
    parse_start_ms_from_key (idle_jpeg_key pfx robot startMs endMs) =
        some startMs ∧
      parse_start_ms_from_key (active_segment_key pfx robot startMs endMs) =
        some startMs := by
  constructor
  · unfold idle_jpeg_key
    have hR : ∀ x ∈ fmtTs endMs ++ [46, 106, 112, 103], x ≠ 47 := by
      intro x hx
      rcases List.mem_append.mp hx with hx | hx
      · exact fmtTs_no_slash hx
      · simp at hx
        omega
    exact parse_key_shape _ startMs _ hR hy0 (by omega)
  · unfold active_segment_key
    have hR : ∀ x ∈ fmtTs endMs ++ [46, 109, 112, 52], x ≠ 47 := by
      intro x hx
      rcases List.mem_append.mp hx with hx | hx
      · exact fmtTs_no_slash hx
      · simp at hx
        omega
    exact parse_key_shape _ startMs _ hR hy0 (by omega)

set_option maxRecDepth 4000 in
/-- Witness: a concrete 2025-02-18 start timestamp round-trips through
both key shapes (prefix empty, robot id "r"). -/
theorem c5_key_roundtrip_witness :
    (0 ≤ (civilFromDays ((1739871000000 : Int) / 86400000)).year ∧
      (civilFromDays ((1739871000000 : Int) / 86400000)).year ≤ 9999) ∧
    (parse_start_ms_from_key
        (idle_jpeg_key [] [114] 1739871000000 1739871005000) =
          some 1739871000000 ∧
      parse_start_ms_from_key
        (active_segment_key [] [114] 1739871000000 1739871005000) =
          some 1739871000000) :=
  ⟨⟨by decide, by decide⟩,
    c5_key_roundtrip [] [114] 1739871000000 1739871005000
      (by decide) (by decide)⟩

end FrameBucket
